import Mathlib

/-!
Verification of `scikeras/_saving_utils.py`: a shallow embedding of the
module's packing/unpacking machinery (staging filesystem, tar-style archive
blob, deferred-slot optimizer restoration hook, and the four pack/unpack
pairs), together with theorems settling the specified properties.

Paths are Python strings; the in-memory storage medium is a list of
(full path, contents) entries; machine-level byte values are `Nat`s.
External collaborators (the `tf_io.gfile` storage primitives and the
model/optimizer/metric/loss save, load, serialize, deserialize,
get_weights and set_weights capabilities) are modelled from the
contracts the specification states for them; everything else follows the
source line by line.
-/

namespace SciKeras

/-! ## Bytes, paths and the staged filesystem -/

abbrev Bytes := List Nat

/-- The in-memory storage medium: the files it currently holds, as
(full path, contents) entries. -/
abbrev FS := List (String × Bytes)

/-- The scheme of the RAM-based filesystem, the literal `"ram://"` of the
source. -/
def ramScheme : String := "ram://"

/-- Models Python `str.startswith`. -/
def pyStartsWith (s p : String) : Bool := p.data.isPrefixOf s.data

/-- Models `os.path.join` for the calls in this module: the second
argument is never absolute and the first never ends in a separator, so
the join is plain separator insertion. -/
def pathJoin (a b : String) : String := a ++ "/" ++ b

/-- Models `os.path.relpath` for the calls in this module, where the
path lies under the base directory and is returned with the base and its
separator stripped. -/
def relpath (dest base : String) : String :=
  if pyStartsWith dest (base ++ "/") then ⟨dest.data.drop (base.data.length + 1)⟩ else dest

/-- Models `os.path.basename`: everything after the last separator. -/
def baseName (s : String) : String :=
  ⟨(s.data.reverse.takeWhile (fun c => c != '/')).reverse⟩

/-- Models `os.path.dirname`: everything before the last separator,
empty when there is none. -/
def dirName (s : String) : String :=
  ⟨((s.data.reverse.dropWhile (fun c => c != '/')).reverse).dropLast⟩

/-- Whether `p` is the path `root` itself or lies strictly under it. -/
def pathUnder (root p : String) : Bool := p == root || pyStartsWith p (root ++ "/")

/-- Modelled from the spec: the storage medium's existence test
(`tf_io.gfile.exists`) — a path exists when some stored entry lies at it
or under it. -/
def gfileExists (fs : FS) (p : String) : Bool := fs.any (fun e => pathUnder p e.1)

/-- Modelled from the spec: the storage medium's remove primitive
(`tf_io.gfile.remove`, used by the source in place of the broken rmtree)
— deletes the entry at the path together with everything under it;
`none` models the raise on a nonexistent path. -/
def gfileRemove (fs : FS) (p : String) : Option FS :=
  if gfileExists fs p then some (fs.filter (fun e => !pathUnder p e.1)) else none

/-- Models opening a stored file and reading its full contents
(`tf_io.gfile.GFile(dest, "rb")` followed by a read); `none` models the
raise on a missing file. The entry's size is its byte length. -/
def fsRead (fs : FS) (p : String) : Option Bytes :=
  (fs.find? (fun e => e.1 == p)).map (fun e => e.2)

/-- Models creating a stored file (`tf_io.gfile.GFile(dest, "wb")`
followed by a write): replaces any entry at that path. Directories are
implicit in the medium, so `tf_io.gfile.makedirs` needs no model. -/
def fsWrite (fs : FS) (p : String) (b : Bytes) : FS :=
  fs.filter (fun e => e.1 != p) ++ [(p, b)]

/-- The file entries lying strictly under a directory. -/
def filesUnder (fs : FS) (root : String) : List (String × Bytes) :=
  fs.filter (fun e => pyStartsWith e.1 (root ++ "/"))

/-- Modelled from the spec: `tf_io.gfile.walk`, flattened to the
(root, filename) pairs the source's nested for-loops visit. When
`fullPaths` is true (the RAM filesystem case) every file under the walk
root is reported with its entire path as the filename; otherwise each
file is reported under its containing directory by its base name. -/
def walkPairs (fullPaths : Bool) (fs : FS) (root : String) : List (String × String) :=
  if fullPaths then (filesUnder fs root).map (fun e => (root, e.1))
  else (filesUnder fs root).map (fun e => (dirName e.1, baseName e.1))

/-- The dest computation that appears verbatim in the walk loops of both
`pack_keras_model` and `unpack_keras_model`: a filename already carrying
the ram scheme is the entire path, otherwise it is joined to the
reported root. -/
def destOf (root filename : String) : String :=
  if pyStartsWith filename ramScheme then filename else pathJoin root filename

/-! ## Python exceptions and the scoped staging storage -/

/-- The exception kinds distinguished by this development. -/
inductive PyExn
  | valueError
  | typeError
  | attributeError
  | notFoundError
  | runtimeError
deriving DecidableEq

/-- The finally-block of the posix branch of `_get_temp_folder`: if the
staging root still exists, remove it and everything under it, otherwise
skip silently. A `none` result would model the cleanup itself raising. -/
def tempFolderCleanup (dir : String) (fs : FS) : Option FS :=
  if gfileExists fs dir then gfileRemove fs dir else some fs

/-- The staging scope exit of `_get_temp_folder`: the body finished with
the given outcome (normal `.ok` or exceptional `.error`, each carrying
the staging filesystem it left behind), and the cleanup runs in either
case before the outcome propagates. -/
def tempFolderExit (dir : String) (outcome : Except (PyExn × FS) FS) :
    Option (Except (PyExn × FS) FS) :=
  match outcome with
  | .ok fs => (tempFolderCleanup dir fs).map (fun fs2 => .ok fs2)
  | .error (e, fs) => (tempFolderCleanup dir fs).map (fun fs2 => .error (e, fs2))

/-- The filesystem a body outcome carries. -/
def outcomeFS (outcome : Except (PyExn × FS) FS) : FS :=
  match outcome with
  | .ok fs => fs
  | .error (_, fs) => fs

/-! ## Optimizer objects and the deferred-slot restoration hook -/

/-- A weight array (models a numpy array through its shape and flat
integer data). -/
structure WArr where
  shape : List Nat
  data : List Int
deriving DecidableEq

/-- A trainable variable, abstracted to the shape that determines its
slots. -/
structure Var where
  shape : List Nat
deriving DecidableEq

/-- The value held by the optimizer's `_create_all_weights` attribute:
either the optimizer's original lazy allocation routine or the
temporary restoration wrapper this module installs. -/
inductive AllocMethod
  | original
  | hooked
deriving DecidableEq

/-- A live optimizer as this module sees it: its collaborator-managed
state of type `σ` plus the dynamic attributes the source reads and
writes. The transient attributes are `Option`s, `none` modelling the
attribute being absent; `_restored_weights` may be present yet hold the
Python value `None`, hence its nested `Option`. -/
structure OptObj (σ : Type) where
  state : σ
  restored_weights : Option (Option (List WArr))
  create_all_weights_orig : Option AllocMethod
  create_all_weights : AllocMethod
deriving DecidableEq

/-- Modelled from the spec: the collaborator operations of a keras
optimizer that the hook invokes — the original lazy allocation routine
and `set_weights` — as state transformers that may raise, carrying the
state left behind at the raise. -/
structure Collab (σ : Type) where
  origAlloc : σ → List Var → Except (PyExn × σ) σ
  setWeights : σ → Option (List WArr) → Except (PyExn × σ) σ

/-- Fresh default (zero-initialized) slot weights for a variable list:
one slot array per bound variable, shaped like it. -/
def defaultWeights (vars : List Var) : List WArr :=
  vars.map (fun v =>
    { shape := v.shape, data := List.replicate (v.shape.foldl (fun a b => a * b) 1) 0 })

/-- Modelled from the spec: the concrete keras optimizer collaborator —
allocation creates fresh default slot weights for the bound variables
and never raises; `set_weights` replaces the weights when every shape
matches, raises ValueError on any shape or length mismatch, and raises
TypeError when handed `None`. -/
def kerasCollab : Collab (List WArr) where
  origAlloc := fun _ vars => .ok (defaultWeights vars)
  setWeights := fun s w =>
    match w with
    | none => .error (.typeError, s)
    | some ws =>
      if ws.map (fun a => a.shape) = s.map (fun a => a.shape) then .ok ws
      else .error (.valueError, s)

/-- `_temp_create_all_weights`: run the saved original allocation
routine, try to apply the pending weights swallowing only `ValueError`,
then delete `_restored_weights` and reinstall the saved routine as
`_create_all_weights`. The saved attribute `_create_all_weights_orig`
holds the optimizer's original allocation routine in every state this
module constructs, so its invocation is modelled by `c.origAlloc`; the
attribute itself is left in place, exactly as in the source. -/
def temp_create_all_weights {σ : Type} (c : Collab σ) (self : OptObj σ)
    (var_list : List Var) : Except (PyExn × OptObj σ) (OptObj σ) :=
  match self.create_all_weights_orig with
  | none => .error (.attributeError, self)
  | some savedMethod =>
    match c.origAlloc self.state var_list with
    | .error (e, s) => .error (e, { self with state := s })
    | .ok s1 =>
      let self1 : OptObj σ := { self with state := s1 }
      match self1.restored_weights with
      | none => .error (.attributeError, self1)
      | some pending =>
        match c.setWeights self1.state pending with
        | .ok s2 =>
          .ok { self1 with
                  state := s2, restored_weights := none,
                  create_all_weights := savedMethod }
        | .error (.valueError, s2) =>
          .ok { self1 with
                  state := s2, restored_weights := none,
                  create_all_weights := savedMethod }
        | .error (e, s2) => .error (e, { self1 with state := s2 })

/-- `_restore_optimizer_weights`: attach the pending weight list and the
saved original routine as transient attributes and install the wrapper
as the allocation routine. -/
def restore_optimizer_weights {σ : Type} (optimizer : OptObj σ)
    (weights : Option (List WArr)) : OptObj σ :=
  { optimizer with
      restored_weights := some weights
      create_all_weights_orig := some optimizer.create_all_weights
      create_all_weights := AllocMethod.hooked }

/-- Invoking `optimizer._create_all_weights(var_list)`: dispatch to
whichever routine is currently installed. -/
def call_create_all_weights {σ : Type} (c : Collab σ) (o : OptObj σ)
    (var_list : List Var) : Except (PyExn × OptObj σ) (OptObj σ) :=
  match o.create_all_weights with
  | .original =>
    match c.origAlloc o.state var_list with
    | .ok s => .ok { o with state := s }
    | .error (e, s) => .error (e, { o with state := s })
  | .hooked => temp_create_all_weights c o var_list

/-! ## The archive blob and the model pack/unpack pair -/

/-- The in-memory tar archive: its ordered sequence of
(entry name, raw bytes) entries; an entry's recorded size is its byte
length. -/
abbrev Archive := List (String × Bytes)

/-- `archive.getnames()`. -/
def tarGetNames (ar : Archive) : List String := ar.map (fun e => e.1)

/-- `archive.extractfile(fname).read()`: the bytes of the member with
the given name (the last-added member wins, as in tarfile). -/
def tarExtractFile (ar : Archive) (fname : String) : Option Bytes :=
  (ar.reverse.find? (fun e => e.1 == fname)).map (fun e => e.2)

/-- A live keras model as this module sees it: the directory tree its
save capability writes (relative paths and contents) and its attached
optimizer's weight arrays (`none` when no optimizer is attached). -/
structure KModel where
  saveTree : List (String × Bytes)
  optimizer : Option (List WArr)
deriving DecidableEq

/-- A relative directory tree laid down under a root. -/
def underDir (d : String) (tree : List (String × Bytes)) : FS :=
  tree.map (fun e => (pathJoin d e.1, e.2))

/-- Modelled from the spec: `model.save(temp_dir)` writes the model's
full state into the staging location as a directory tree. -/
def saveModelFs (m : KModel) (dir : String) (fs : FS) : FS :=
  fs ++ underDir dir m.saveTree

/-- The model object `load_model` returns: an opaque architecture
payload plus the optimizer as a live object. -/
structure LiveModel where
  payload : Bytes
  optimizer : Option (OptObj (List WArr))
deriving DecidableEq

/-- A freshly constructed optimizer: given weights, no transient
attributes, original allocation routine installed. -/
def freshOpt (ws : List WArr) : OptObj (List WArr) :=
  { state := ws, restored_weights := none, create_all_weights_orig := none,
    create_all_weights := AllocMethod.original }

/-- Modelled from the spec: the optimizer-state portion of the native
save format is opaque to this module; decoding the stored bytes back
into weight arrays is abstracted. -/
def decodeWeights (bs : Bytes) : List WArr :=
  [{ shape := [bs.length], data := bs.map Int.ofNat }]

/-- Modelled from the spec: `load_model` reconstructs a live model from
the directory tree the save capability wrote. The file `model.bin`
holds the architecture payload, and the file `optimizer.bin` is present
exactly when an optimizer is attached to the saved model. -/
def loadFiles (files : List (String × Bytes)) : Option LiveModel :=
  match fsRead files "model.bin" with
  | none => none
  | some payload =>
    some { payload := payload
           optimizer := (fsRead files "optimizer.bin").map
             (fun bs => freshOpt (decodeWeights bs)) }

/-- The directory tree under a staging root, re-keyed by paths relative
to the root. -/
def treeUnder (fs : FS) (dir : String) : List (String × Bytes) :=
  (filesUnder fs dir).map (fun e => (relpath e.1 dir, e.2))

/-- `load_model(temp_dir)`. -/
def loadModelAt (fs : FS) (dir : String) : Option LiveModel :=
  loadFiles (treeUnder fs dir)

/-- The archiving loop of `pack_keras_model` over the flattened walk
pairs: compute dest, read the file in full, append one archive entry
keyed by the path relative to the staging root, and remove the file
before moving to the next one. `none` models an uncaught collaborator
raise. -/
def packFiles (temp_dir : String) : List (String × String) → FS → Option (Archive × FS)
  | [], fs => some ([], fs)
  | (root, filename) :: rest, fs =>
    let dest := destOf root filename
    match fsRead fs dest with
    | none => none
    | some bytes =>
      match gfileRemove fs dest with
      | none => none
      | some fs1 =>
        match packFiles temp_dir rest fs1 with
        | none => none
        | some (ar, fs2) => some ((relpath dest temp_dir, bytes) :: ar, fs2)

/-- The post-load cleanup loop of `unpack_keras_model` over the
flattened walk pairs: compute dest and remove the file. -/
def deleteFiles : List (String × String) → FS → Option FS
  | [], fs => some fs
  | (root, filename) :: rest, fs =>
    match gfileRemove fs (destOf root filename) with
    | none => none
    | some fs1 => deleteFiles rest fs1

/-- The extraction loop of `unpack_keras_model` over
`archive.getnames()`: write each member's bytes to the destination
joined under the staging root. -/
def extractEntries (ar : Archive) (temp_dir : String) : List String → FS → Option FS
  | [], fs => some fs
  | fname :: rest, fs =>
    match tarExtractFile ar fname with
    | none => none
    | some bytes => extractEntries ar temp_dir rest (fsWrite fs (pathJoin temp_dir fname) bytes)

/-- Open the blob as an archive and extract every member under the
staging root. -/
def extractArchive (ar : Archive) (temp_dir : String) (fs : FS) : Option FS :=
  extractEntries ar temp_dir (tarGetNames ar) fs

/-- The tag standing for which unpack callback a pack function returns
alongside its argument tuple. -/
inductive UnpackTag
  | unpackModelTag
  | unpackOptimizerTag
  | unpackMetricTag
  | unpackLossTag
deriving DecidableEq

/-- The (unpack callback, argument tuple) pair `pack_keras_model`
returns: the archive blob plus the optimizer weight list, `None` when
no optimizer is attached. -/
structure PackedModel where
  unpackFn : UnpackTag
  archive : Archive
  optimizer_weights : Option (List WArr)
deriving DecidableEq

/-- `pack_keras_model` inside its staging scope, with `temp_dir` the
acquired unique root and `fullPaths` the storage medium's walk
reporting mode: save the model into the fresh staging root, archive and
delete every staged file, and pair the blob with the optimizer's weight
arrays (`model.optimizer.get_weights()` when an optimizer is attached,
`None` otherwise). Also returns the staging filesystem exactly as the
archiving loop left it. -/
def pack_keras_model (fullPaths : Bool) (m : KModel) (temp_dir : String) :
    Option (PackedModel × FS) :=
  let fs1 := saveModelFs m temp_dir []
  match packFiles temp_dir (walkPairs fullPaths fs1 temp_dir) fs1 with
  | none => none
  | some (ar, fs2) =>
    some ({ unpackFn := UnpackTag.unpackModelTag, archive := ar,
            optimizer_weights := m.optimizer }, fs2)

/-- `unpack_keras_model` inside its fresh staging scope: extract every
archive member under the root, load the model, delete every staged
file, and — whenever the loaded model has an optimizer — attach the
restoration hook with the supplied weights. Also returns the staging
filesystem exactly as the cleanup walk left it. -/
def unpack_keras_model (fullPaths : Bool) (packed_keras_model : Archive)
    (optimizer_weights : Option (List WArr)) (temp_dir : String) :
    Option (LiveModel × FS) :=
  match extractArchive packed_keras_model temp_dir [] with
  | none => none
  | some fs1 =>
    match loadModelAt fs1 temp_dir with
    | none => none
    | some model =>
      match deleteFiles (walkPairs fullPaths fs1 temp_dir) fs1 with
      | none => none
      | some fs2 =>
        match model.optimizer with
        | none => some (model, fs2)
        | some opt =>
          some ({ model with
                    optimizer := some (restore_optimizer_weights opt optimizer_weights) },
                fs2)

/-- The save/load collaborator contract the spec states for models:
loading the tree the model saved reproduces an equivalent live model —
in particular one whose optimizer presence matches the original's. -/
def saveLoadCoherent (m : KModel) : Prop :=
  ∃ live, loadFiles m.saveTree = some live ∧ live.optimizer = m.optimizer.map freshOpt

/-- Distinct, non-nested relative paths: what it means for a list of
file paths to form a directory tree. -/
@[reducible] def pairwiseSep (ps : List String) : Prop :=
  ps.Pairwise (fun p q =>
    p ≠ q ∧ pyStartsWith q (p ++ "/") = false ∧ pyStartsWith p (q ++ "/") = false)

/-! ## Metric and loss pack/unpack -/

/-- A serialized configuration: a class identifier plus constructor
arguments, opaque to this module. -/
structure SerializedConfig where
  clsName : String
  params : List (String × String)
deriving DecidableEq

/-- A live metric: its configuration plus internal accumulator state
that is no part of its serialization. -/
structure KMetric where
  config : SerializedConfig
  accState : List Int
deriving DecidableEq

/-- A live loss: stateless, fully described by its configuration. -/
structure KLoss where
  config : SerializedConfig
deriving DecidableEq

/-- Modelled from the spec: `keras.metrics.serialize` produces the
metric's serialized configuration and nothing else. -/
def serializeMetric (metric : KMetric) : SerializedConfig := metric.config

/-- Modelled from the spec: `keras.metrics.deserialize` builds a fresh
live metric from a configuration. -/
def deserializeMetric (c : SerializedConfig) : KMetric :=
  { config := c, accState := [] }

/-- Modelled from the spec: `keras.losses.serialize`. -/
def serializeLoss (loss : KLoss) : SerializedConfig := loss.config

/-- Modelled from the spec: `keras.losses.deserialize`. -/
def deserializeLoss (c : SerializedConfig) : KLoss := { config := c }

/-- `unpack_keras_metric`. -/
def unpack_keras_metric (metric_serialized : SerializedConfig) : KMetric :=
  deserializeMetric metric_serialized

/-- `pack_keras_metric`: the unpack callback plus the one-element
argument tuple holding the serialized configuration. -/
def pack_keras_metric (metric : KMetric) : UnpackTag × SerializedConfig :=
  (UnpackTag.unpackMetricTag, serializeMetric metric)

/-- `unpack_keras_loss`. -/
def unpack_keras_loss (loss_serialized : SerializedConfig) : KLoss :=
  deserializeLoss loss_serialized

/-- `pack_keras_loss`: the unpack callback plus the one-element
argument tuple holding the serialized configuration. -/
def pack_keras_loss (loss : KLoss) : UnpackTag × SerializedConfig :=
  (UnpackTag.unpackLossTag, serializeLoss loss)

/-! ## Concrete sample data used by the witness and counterexample theorems -/

/-- A two-file save tree. -/
def sampleTree : List (String × Bytes) := [("model.bin", [7, 8]), ("assets/x", [9])]

/-- A model with no attached optimizer whose save tree is loadable. -/
def sampleModelNoOpt : KModel := { saveTree := [("model.bin", [7, 8])], optimizer := none }

/-- A variable of shape [2]. -/
def sampleVar : Var := { shape := [2] }

/-- A weight array matching the slots allocated for `sampleVar`. -/
def sampleW : WArr := { shape := [2], data := [1, 2] }

/-- A weight array whose shape matches no slot allocated for `sampleVar`. -/
def sampleWBad : WArr := { shape := [3], data := [1, 2, 3] }

/-- A freshly constructed optimizer with empty state. -/
def baseOpt : OptObj (List WArr) := freshOpt []

/-- `baseOpt` with the restoration hook attached and matching pending weights. -/
def hookedOpt : OptObj (List WArr) := restore_optimizer_weights baseOpt (some [sampleW])

/-- `baseOpt` with the restoration hook attached and mismatched pending weights. -/
def hookedOptBad : OptObj (List WArr) := restore_optimizer_weights baseOpt (some [sampleWBad])

/-- An archive whose model carries an optimizer. -/
def cxArchive : Archive := [("model.bin", []), ("optimizer.bin", [3])]

/-- A collaborator whose allocation routine raises a non-ValueError. -/
def failCollab : Collab Nat :=
  { origAlloc := fun s _ => .error (.runtimeError, s + 1)
    setWeights := fun s _ => .ok s }

/-- A collaborator whose set_weights raises a non-ValueError. -/
def badSetCollab : Collab Nat :=
  { origAlloc := fun _ _ => .ok 5
    setWeights := fun s _ => .error (.typeError, s + 2) }

/-- A Nat-state optimizer with the restoration hook attached. -/
def hookedOptNat : OptObj Nat :=
  restore_optimizer_weights
    { state := 0, restored_weights := none, create_all_weights_orig := none,
      create_all_weights := AllocMethod.original }
    (some [sampleW])

/-- The optimizer state after `hookedOpt` fires on `[sampleVar]`. -/
def cxOut : OptObj (List WArr) :=
  { state := [sampleW], restored_weights := none,
    create_all_weights_orig := some AllocMethod.original,
    create_all_weights := AllocMethod.original }

/-- The optimizer of the model `unpack_keras_model` reconstructs from
`cxArchive` when handed no weights. -/
def cxLiveOpt : OptObj (List WArr) :=
  restore_optimizer_weights (freshOpt (decodeWeights [3])) none

/-- The model `unpack_keras_model` reconstructs from `cxArchive` when
handed no weights. -/
def cxLive : LiveModel := { payload := [], optimizer := some cxLiveOpt }

/-- A metric with nontrivial accumulator state. -/
def sampleMetric : KMetric :=
  { config := { clsName := "acc", params := [("k", "1")] }, accState := [4] }

/-- A loss. -/
def sampleLoss : KLoss := { config := { clsName := "mse", params := [] } }

/-! ## Path arithmetic -/

theorem pyStartsWith_iff {s p : String} : pyStartsWith s p = true ↔ p.data <+: s.data := by
  simp [pyStartsWith]

theorem data_append_slash (a : String) : (a ++ "/").data = a.data ++ ['/'] := by
  simp

theorem data_pathJoin (a b : String) : (pathJoin a b).data = a.data ++ '/' :: b.data := by
  simp [pathJoin]

theorem pyStartsWith_join_base (a b : String) :
    pyStartsWith (pathJoin a b) (a ++ "/") = true := by
  rw [pyStartsWith_iff, data_append_slash, data_pathJoin]
  exact ⟨b.data, by simp⟩

theorem relpath_pathJoin (a b : String) : relpath (pathJoin a b) a = b := by
  rw [relpath, if_pos (pyStartsWith_join_base a b)]
  apply String.ext
  show (pathJoin a b).data.drop (a.data.length + 1) = b.data
  rw [data_pathJoin]
  have h : a.data ++ '/' :: b.data = (a.data ++ ['/']) ++ b.data := by simp
  rw [h, List.drop_left' (by simp)]

theorem pathJoin_right_inj {a b c : String} (h : pathJoin a b = pathJoin a c) : b = c := by
  apply String.ext
  have hd := congrArg String.data h
  rw [data_pathJoin, data_pathJoin] at hd
  exact (List.cons.inj (List.append_cancel_left hd)).2

theorem slash_mem_of_ram {x : String} (h : pyStartsWith x ramScheme = true) :
    '/' ∈ x.data := by
  rw [pyStartsWith_iff] at h
  exact h.subset (show '/' ∈ ramScheme.data by decide)

theorem baseName_no_slash (s : String) : '/' ∉ (baseName s).data := by
  intro hmem
  have hmem2 : '/' ∈ s.data.reverse.takeWhile (fun c => c != '/') := by
    simpa [baseName] using hmem
  have := List.mem_takeWhile_imp hmem2
  simp at this

theorem baseName_not_ram (s : String) :
    pyStartsWith (baseName s) ramScheme = false := by
  cases h : pyStartsWith (baseName s) ramScheme with
  | false => rfl
  | true => exact absurd (slash_mem_of_ram h) (baseName_no_slash s)

theorem slash_mem_pathJoin (a b : String) : '/' ∈ (pathJoin a b).data := by
  rw [data_pathJoin]; simp

theorem dropWhile_head_false {α : Type} {p : α → Bool} :
    ∀ {l : List α} {c : α} {t : List α}, l.dropWhile p = c :: t → p c = false := by
  intro l
  induction l with
  | nil => intro c t h; simp at h
  | cons a l ih =>
    intro c t h
    rw [List.dropWhile_cons] at h
    cases hp : p a with
    | true => rw [hp] at h; simp only [if_true] at h; exact ih h
    | false =>
      rw [hp] at h
      simp only [Bool.false_eq_true, if_false, List.cons.injEq] at h
      rw [← h.1]; exact hp

theorem dirName_baseName_recompose {s : String} (h : '/' ∈ s.data) :
    pathJoin (dirName s) (baseName s) = s := by
  apply String.ext
  rw [data_pathJoin]
  have hr : '/' ∈ s.data.reverse := by rwa [List.mem_reverse]
  have hsplit : s.data.reverse.takeWhile (fun c => c != '/')
      ++ s.data.reverse.dropWhile (fun c => c != '/') = s.data.reverse :=
    List.takeWhile_append_dropWhile _ _
  have hdw : s.data.reverse.dropWhile (fun c => c != '/') ≠ [] := by
    intro hnil
    rw [hnil, List.append_nil] at hsplit
    have h2 : '/' ∈ s.data.reverse.takeWhile (fun c => c != '/') := hsplit.symm ▸ hr
    have := List.mem_takeWhile_imp h2
    simp at this
  obtain ⟨c, t, hct⟩ : ∃ c t, s.data.reverse.dropWhile (fun c => c != '/') = c :: t := by
    cases hx : s.data.reverse.dropWhile (fun c => c != '/') with
    | nil => exact absurd hx hdw
    | cons c t => exact ⟨c, t, rfl⟩
  have hc : c = '/' := by
    have hh := dropWhile_head_false hct
    simpa using hh
  subst hc
  have hs : s.data = t.reverse ++ '/' :: (s.data.reverse.takeWhile (fun c => c != '/')).reverse := by
    conv_lhs => rw [← s.data.reverse_reverse, ← hsplit]
    rw [hct]
    simp
  have hdir : (dirName s).data = t.reverse := by
    show ((s.data.reverse.dropWhile (fun c => c != '/')).reverse).dropLast = t.reverse
    rw [hct]
    simp
  have hbase : (baseName s).data = (s.data.reverse.takeWhile (fun c => c != '/')).reverse := rfl
  rw [hdir, hbase]
  exact hs.symm

theorem pyStartsWith_extend {d x : String} (h : pyStartsWith d ramScheme = true)
    (hp : d.data <+: x.data) : pyStartsWith x ramScheme = true := by
  rw [pyStartsWith_iff] at h ⊢
  exact h.trans hp

theorem pyStartsWith_join_ram {d : String} (h : pyStartsWith d ramScheme = true)
    (p : String) : pyStartsWith (pathJoin d p) ramScheme = true := by
  exact pyStartsWith_extend h (by rw [data_pathJoin]; exact ⟨'/' :: p.data, rfl⟩)

theorem destOf_full {d : String} (h : pyStartsWith d ramScheme = true) (root p : String) :
    destOf root (pathJoin d p) = pathJoin d p := by
  simp [destOf, pyStartsWith_join_ram h p]

theorem destOf_rel (d p : String) :
    destOf (dirName (pathJoin d p)) (baseName (pathJoin d p)) = pathJoin d p := by
  simp only [destOf, baseName_not_ram, Bool.false_eq_true, if_false]
  exact dirName_baseName_recompose (slash_mem_pathJoin d p)

theorem pyStartsWith_join_join {d p q : String}
    (h : pyStartsWith (pathJoin d q) (pathJoin d p ++ "/") = true) :
    pyStartsWith q (p ++ "/") = true := by
  rw [pyStartsWith_iff] at h ⊢
  rw [data_append_slash, data_pathJoin, data_pathJoin] at h
  rw [data_append_slash]
  have e1 : (d.data ++ '/' :: p.data) ++ ['/'] = (d.data ++ ['/']) ++ (p.data ++ ['/']) := by simp
  have e2 : d.data ++ '/' :: q.data = (d.data ++ ['/']) ++ q.data := by simp
  rw [e1, e2] at h
  exact (List.prefix_append_right_inj _).mp h

theorem pathUnder_self (p : String) : pathUnder p p = true := by
  simp [pathUnder]

theorem pathUnder_join_false {d p q : String} (hne : p ≠ q)
    (hq : pyStartsWith q (p ++ "/") = false) :
    pathUnder (pathJoin d p) (pathJoin d q) = false := by
  have h1 : (pathJoin d q == pathJoin d p) = false := by
    rw [beq_eq_false_iff_ne]
    intro he
    exact hne (pathJoin_right_inj he).symm
  have h2 : pyStartsWith (pathJoin d q) (pathJoin d p ++ "/") = false := by
    cases hx : pyStartsWith (pathJoin d q) (pathJoin d p ++ "/") with
    | false => rfl
    | true => rw [pyStartsWith_join_join hx] at hq; cases hq
  simp [pathUnder, h1, h2]

theorem filesUnder_underDir (tree : List (String × Bytes)) (d : String) :
    filesUnder (underDir d tree) d = underDir d tree := by
  rw [filesUnder, List.filter_eq_self]
  intro a ha
  rw [underDir, List.mem_map] at ha
  obtain ⟨e, _, rfl⟩ := ha
  exact pyStartsWith_join_base d e.1

theorem treeUnder_underDir (tree : List (String × Bytes)) (d : String) :
    treeUnder (underDir d tree) d = tree := by
  rw [treeUnder, filesUnder_underDir, underDir, List.map_map]
  conv_rhs => rw [← List.map_id tree]
  apply List.map_congr_left
  intro e _
  simp [relpath_pathJoin]

/-! ## The walk loops on a staged tree -/

theorem walkPairs_underDir_true (d : String) (tree : List (String × Bytes)) :
    walkPairs true (underDir d tree) d = tree.map (fun e => (d, pathJoin d e.1)) := by
  have h : walkPairs true (underDir d tree) d
      = (filesUnder (underDir d tree) d).map (fun e => (d, e.1)) := rfl
  rw [h, filesUnder_underDir, underDir, List.map_map]
  apply List.map_congr_left
  intro e _
  rfl

theorem walkPairs_underDir_false (d : String) (tree : List (String × Bytes)) :
    walkPairs false (underDir d tree) d =
      tree.map (fun e => (dirName (pathJoin d e.1), baseName (pathJoin d e.1))) := by
  have h : walkPairs false (underDir d tree) d
      = (filesUnder (underDir d tree) d).map (fun e => (dirName e.1, baseName e.1)) := rfl
  rw [h, filesUnder_underDir, underDir, List.map_map]
  apply List.map_congr_left
  intro e _
  rfl

theorem pairwiseSep_head (p : String) (ps : List String) (h : pairwiseSep (p :: ps)) :
    ∀ q ∈ ps, p ≠ q ∧ pyStartsWith q (p ++ "/") = false ∧ pyStartsWith p (q ++ "/") = false :=
  (List.pairwise_cons.mp h).1

theorem pairwiseSep_tail (p : String) (ps : List String) (h : pairwiseSep (p :: ps)) :
    pairwiseSep ps :=
  (List.pairwise_cons.mp h).2

theorem gfileRemove_head (d : String) (e : String × Bytes) (rest : List (String × Bytes))
    (hrest : ∀ q ∈ rest.map Prod.fst,
      e.1 ≠ q ∧ pyStartsWith q (e.1 ++ "/") = false ∧ pyStartsWith e.1 (q ++ "/") = false) :
    gfileRemove ((pathJoin d e.1, e.2) :: underDir d rest) (pathJoin d e.1) =
      some (underDir d rest) := by
  have hex : gfileExists ((pathJoin d e.1, e.2) :: underDir d rest) (pathJoin d e.1) = true := by
    simp [gfileExists, pathUnder_self]
  rw [gfileRemove, if_pos hex]
  congr 1
  rw [List.filter_cons]
  have hhead : (!pathUnder (pathJoin d e.1) (pathJoin d e.1, e.2).1) = false := by
    simp [pathUnder_self]
  rw [hhead, if_neg (by simp)]
  rw [List.filter_eq_self]
  intro x hx
  rw [underDir, List.mem_map] at hx
  obtain ⟨f, hf, rfl⟩ := hx
  have hq := hrest f.1 (List.mem_map_of_mem Prod.fst hf)
  simp [pathUnder_join_false hq.1 hq.2.1]

theorem packFiles_pairs (d : String) (pf : (String × Bytes) → String × String)
    (hpf : ∀ e : String × Bytes, destOf (pf e).1 (pf e).2 = pathJoin d e.1) :
    ∀ tree : List (String × Bytes), pairwiseSep (tree.map Prod.fst) →
      packFiles d (tree.map pf) (underDir d tree) = some (tree, []) := by
  intro tree
  induction tree with
  | nil => intro _; rfl
  | cons e rest ih =>
    intro hsep
    rw [List.map_cons]
    rcases hpe : pf e with ⟨r, f⟩
    have hdest : destOf r f = pathJoin d e.1 := by
      have h0 := hpf e
      rw [hpe] at h0
      exact h0
    have hrest := pairwiseSep_head e.1 (rest.map Prod.fst) hsep
    have hread : fsRead (underDir d (e :: rest)) (pathJoin d e.1) = some e.2 := by
      simp [fsRead, underDir]
    have hrm : gfileRemove (underDir d (e :: rest)) (pathJoin d e.1) =
        some (underDir d rest) := by
      have h1 : underDir d (e :: rest) = (pathJoin d e.1, e.2) :: underDir d rest := rfl
      rw [h1]
      exact gfileRemove_head d e rest hrest
    simp only [packFiles, hdest, hread, hrm,
      ih (pairwiseSep_tail e.1 (rest.map Prod.fst) hsep), relpath_pathJoin]

theorem deleteFiles_pairs (d : String) (pf : (String × Bytes) → String × String)
    (hpf : ∀ e : String × Bytes, destOf (pf e).1 (pf e).2 = pathJoin d e.1) :
    ∀ tree : List (String × Bytes), pairwiseSep (tree.map Prod.fst) →
      deleteFiles (tree.map pf) (underDir d tree) = some [] := by
  intro tree
  induction tree with
  | nil => intro _; rfl
  | cons e rest ih =>
    intro hsep
    rw [List.map_cons]
    rcases hpe : pf e with ⟨r, f⟩
    have hdest : destOf r f = pathJoin d e.1 := by
      have h0 := hpf e
      rw [hpe] at h0
      exact h0
    have hrest := pairwiseSep_head e.1 (rest.map Prod.fst) hsep
    have hrm : gfileRemove (underDir d (e :: rest)) (pathJoin d e.1) =
        some (underDir d rest) := by
      have h1 : underDir d (e :: rest) = (pathJoin d e.1, e.2) :: underDir d rest := rfl
      rw [h1]
      exact gfileRemove_head d e rest hrest
    simp only [deleteFiles, hdest, hrm,
      ih (pairwiseSep_tail e.1 (rest.map Prod.fst) hsep)]

theorem packFiles_walk {d : String} (hd : pyStartsWith d ramScheme = true) (mode : Bool)
    (tree : List (String × Bytes)) (hsep : pairwiseSep (tree.map Prod.fst)) :
    packFiles d (walkPairs mode (underDir d tree) d) (underDir d tree) = some (tree, []) := by
  cases mode with
  | false =>
    rw [walkPairs_underDir_false]
    exact packFiles_pairs d _ (fun e => destOf_rel d e.1) tree hsep
  | true =>
    rw [walkPairs_underDir_true]
    exact packFiles_pairs d _ (fun e => destOf_full hd d e.1) tree hsep

theorem deleteFiles_walk {d : String} (hd : pyStartsWith d ramScheme = true) (mode : Bool)
    (tree : List (String × Bytes)) (hsep : pairwiseSep (tree.map Prod.fst)) :
    deleteFiles (walkPairs mode (underDir d tree) d) (underDir d tree) = some [] := by
  cases mode with
  | false =>
    rw [walkPairs_underDir_false]
    exact deleteFiles_pairs d _ (fun e => destOf_rel d e.1) tree hsep
  | true =>
    rw [walkPairs_underDir_true]
    exact deleteFiles_pairs d _ (fun e => destOf_full hd d e.1) tree hsep

/-! ## The extraction loop -/

theorem find?_key_of_nodup :
    ∀ (l : Archive), (l.map Prod.fst).Nodup → ∀ e ∈ l, l.find? (fun f => f.1 == e.1) = some e := by
  intro l
  induction l with
  | nil => intro _ e he; cases he
  | cons a t ih =>
    intro hn e he
    rw [List.map_cons, List.nodup_cons] at hn
    rcases List.mem_cons.mp he with rfl | ht
    · rw [List.find?_cons_of_pos _ (by simp)]
    · rw [List.find?_cons_of_neg _ (by
        simp only [beq_iff_eq]
        intro heq
        apply hn.1
        rw [heq]
        exact List.mem_map_of_mem Prod.fst ht)]
      exact ih hn.2 e ht

theorem tarExtractFile_of_nodup {ar : Archive} (hn : (ar.map Prod.fst).Nodup) :
    ∀ e ∈ ar, tarExtractFile ar e.1 = some e.2 := by
  intro e he
  rw [tarExtractFile, find?_key_of_nodup ar.reverse (by
    rw [List.map_reverse]
    exact List.nodup_reverse.mpr hn) e (List.mem_reverse.mpr he)]
  rfl

theorem extractEntries_run (arFull : Archive) (d : String) :
    ∀ (suffix : List (String × Bytes)) (fs0 : FS),
      (∀ e ∈ suffix, tarExtractFile arFull e.1 = some e.2) →
      (∀ e ∈ suffix, ∀ f ∈ fs0, f.1 ≠ pathJoin d e.1) →
      (suffix.map Prod.fst).Nodup →
      extractEntries arFull d (suffix.map Prod.fst) fs0 = some (fs0 ++ underDir d suffix) := by
  intro suffix
  induction suffix with
  | nil => intro fs0 _ _ _; simp [extractEntries, underDir]
  | cons e rest ih =>
    intro fs0 hext hfresh hn
    rw [List.map_cons, List.nodup_cons] at hn
    rw [List.map_cons]
    have hwrite : fsWrite fs0 (pathJoin d e.1) e.2 = fs0 ++ [(pathJoin d e.1, e.2)] := by
      rw [fsWrite]
      congr 1
      rw [List.filter_eq_self]
      intro f hf
      simpa using hfresh e (List.mem_cons_self e rest) f hf
    simp only [extractEntries, hext e (List.mem_cons_self e rest), hwrite]
    rw [ih (fs0 ++ [(pathJoin d e.1, e.2)])
      (fun f hf => hext f (List.mem_cons_of_mem e hf))
      (by
        intro f hf g hg
        rcases List.mem_append.mp hg with hg0 | hg1
        · exact hfresh f (List.mem_cons_of_mem e hf) g hg0
        · have : g = (pathJoin d e.1, e.2) := by simpa using hg1
          rw [this]
          intro hgj
          apply hn.1
          have : e.1 = f.1 := pathJoin_right_inj hgj
          rw [this]
          exact List.mem_map_of_mem Prod.fst hf)
      hn.2]
    have : underDir d (e :: rest) = (pathJoin d e.1, e.2) :: underDir d rest := rfl
    rw [this]
    simp

theorem extractArchive_underDir (tree : List (String × Bytes)) (d : String)
    (hn : (tree.map Prod.fst).Nodup) :
    extractArchive tree d [] = some (underDir d tree) := by
  rw [extractArchive, tarGetNames]
  have := extractEntries_run tree d tree []
    (tarExtractFile_of_nodup hn) (by intro e _ f hf; cases hf) hn
  simpa using this

/-! ## Composite runs of pack and unpack -/

theorem ram_append (u : String) : pyStartsWith ("ram://" ++ u) ramScheme = true := by
  rw [pyStartsWith_iff]
  exact ⟨u.data, rfl⟩

theorem pairwiseSep_nodup {ps : List String} (h : pairwiseSep ps) : ps.Nodup :=
  h.imp (fun hx => hx.1)

theorem pack_keras_model_run {d : String} (hd : pyStartsWith d ramScheme = true)
    (mode : Bool) (m : KModel) (hsep : pairwiseSep (m.saveTree.map Prod.fst)) :
    pack_keras_model mode m d =
      some ({ unpackFn := UnpackTag.unpackModelTag, archive := m.saveTree,
              optimizer_weights := m.optimizer }, []) := by
  have hsave : saveModelFs m d [] = underDir d m.saveTree := by
    simp [saveModelFs]
  simp only [pack_keras_model, hsave, packFiles_walk hd mode m.saveTree hsep]

theorem unpack_keras_model_run {d : String} (hd : pyStartsWith d ramScheme = true)
    (mode : Bool) {tree : List (String × Bytes)} (ow : Option (List WArr))
    (hsep : pairwiseSep (tree.map Prod.fst)) {live : LiveModel}
    (hload : loadFiles tree = some live) :
    unpack_keras_model mode tree ow d =
      some ({ live with
                optimizer := live.optimizer.map
                  (fun opt => restore_optimizer_weights opt ow) },
            []) := by
  have hnodup : (tree.map Prod.fst).Nodup := pairwiseSep_nodup hsep
  have hextract := extractArchive_underDir tree d hnodup
  have hloadAt : loadModelAt (underDir d tree) d = some live := by
    rw [loadModelAt, treeUnder_underDir]
    exact hload
  have hdel := deleteFiles_walk hd mode tree hsep
  simp only [unpack_keras_model, hextract, hloadAt, hdel]
  cases holive : live.optimizer with
  | none =>
    cases live with
    | mk payload optim =>
      simp only at holive
      subst holive
      simp
  | some opt =>
    cases live with
    | mk payload optim =>
      simp only at holive
      subst holive
      simp

theorem loadFiles_opt_fresh {files : List (String × Bytes)} {live : LiveModel}
    (h : loadFiles files = some live) :
    ∀ o, live.optimizer = some o →
      o.create_all_weights = AllocMethod.original ∧
      o.restored_weights = none ∧ o.create_all_weights_orig = none := by
  intro o ho
  rw [loadFiles] at h
  cases hr : fsRead files "model.bin" with
  | none => rw [hr] at h; cases h
  | some payload =>
    rw [hr] at h
    simp only [Option.some.injEq] at h
    rw [← h] at ho
    simp only at ho
    rcases Option.map_eq_some'.mp ho with ⟨bs, _, rfl⟩
    exact ⟨rfl, rfl, rfl⟩

/-! ## Staging-scope cleanup -/

theorem filesUnder_nil_of_not_exists {fs : FS} {dir : String}
    (h : gfileExists fs dir = false) : filesUnder fs dir = [] := by
  rw [filesUnder, List.filter_eq_nil_iff]
  intro a ha hstart
  rw [gfileExists, List.any_eq_false] at h
  exact h a ha (by simp [pathUnder, hstart])

theorem tempFolderCleanup_spec (dir : String) (fs : FS) :
    ∃ fs2, tempFolderCleanup dir fs = some fs2 ∧
      gfileExists fs2 dir = false ∧
      (gfileExists fs dir = false → fs2 = fs) := by
  cases hex : gfileExists fs dir with
  | false =>
    refine ⟨fs, ?_, hex, fun _ => rfl⟩
    rw [tempFolderCleanup, if_neg (by simp [hex])]
  | true =>
    refine ⟨fs.filter (fun e => !pathUnder dir e.1), ?_, ?_, fun hfalse => by
      simp at hfalse⟩
    · rw [tempFolderCleanup, if_pos hex, gfileRemove, if_pos hex]
    · rw [gfileExists, List.any_eq_false]
      intro x hx
      rcases List.mem_filter.mp hx with ⟨_, hkeep⟩
      simp only [Bool.not_eq_eq_eq_not, Bool.not_true] at hkeep
      simp [hkeep]

theorem unpack_keras_model_char {mode : Bool} {ar : Archive} {ow : Option (List WArr)}
    {d : String} {live : LiveModel} {fs2 : FS}
    (h : unpack_keras_model mode ar ow d = some (live, fs2)) :
    ∃ fs1 model, extractArchive ar d [] = some fs1 ∧
      loadModelAt fs1 d = some model ∧
      deleteFiles (walkPairs mode fs1 d) fs1 = some fs2 ∧
      ((model.optimizer = none ∧ live = model) ∨
       (∃ opt0, model.optimizer = some opt0 ∧
         live = { model with optimizer := some (restore_optimizer_weights opt0 ow) })) := by
  unfold unpack_keras_model at h
  split at h
  next => exact absurd h (by simp)
  next fs1 hex =>
    split at h
    next => exact absurd h (by simp)
    next model hld =>
      split at h
      next => exact absurd h (by simp)
      next fs3 hdel =>
        split at h
        next hmo =>
          simp only [Option.some.injEq, Prod.mk.injEq] at h
          exact ⟨fs1, model, hex, hld, by rw [← h.2]; exact hdel, Or.inl ⟨hmo, h.1.symm⟩⟩
        next opt0 hmo =>
          simp only [Option.some.injEq, Prod.mk.injEq] at h
          exact ⟨fs1, model, hex, hld, by rw [← h.2]; exact hdel,
            Or.inr ⟨opt0, hmo, h.1.symm⟩⟩

/-! ## The claims -/

/-- Claim C1: for every directory tree staged by a model's save step,
packing with `pack_keras_model` and then extracting the resulting
archive under a fresh staging root (the extraction phase of
`unpack_keras_model`) reproduces byte-identical file contents at the
equivalent relative paths, in both walk-reporting modes — including the
full/absolute path reporting of the in-memory storage medium. -/
theorem pack_unpack_archive_fidelity (mode : Bool) (m : KModel) (u1 u2 : String)
    (hsep : pairwiseSep (m.saveTree.map Prod.fst)) :
    ∃ px : PackedModel,
      pack_keras_model mode m ("ram://" ++ u1) = some (px, []) ∧
      px.archive = m.saveTree ∧
      extractArchive px.archive ("ram://" ++ u2) [] =
        some (underDir ("ram://" ++ u2) m.saveTree) := by
  refine ⟨_, pack_keras_model_run (ram_append u1) mode m hsep, rfl, ?_⟩
  exact extractArchive_underDir m.saveTree _ (pairwiseSep_nodup hsep)

/-- Witness for C1 at a concrete two-file tree. -/
theorem pack_unpack_archive_fidelity_witness :
    ∃ px : PackedModel,
      pack_keras_model false { saveTree := sampleTree, optimizer := none }
          ("ram://" ++ "a") = some (px, []) ∧
      px.archive = sampleTree ∧
      extractArchive px.archive ("ram://" ++ "b") [] =
        some (underDir ("ram://" ++ "b") sampleTree) :=
  pack_unpack_archive_fidelity false { saveTree := sampleTree, optimizer := none }
    "a" "b" (by decide)

/-- Claim C4: on every staging-scope exit — whether the body returned
normally or raised — the cleanup runs and never raises: everything at
or under the staging root is removed if the root still exists, the
cleanup is skipped leaving the outcome untouched if it does not, the
outcome kind (normal or exceptional, with the same exception) is
preserved, and running the exit again on the result also succeeds and
changes nothing. -/
theorem staging_scope_cleanup (dir : String) (outcome : Except (PyExn × FS) FS) :
    ∃ out2, tempFolderExit dir outcome = some out2 ∧
      gfileExists (outcomeFS out2) dir = false ∧
      filesUnder (outcomeFS out2) dir = [] ∧
      (gfileExists (outcomeFS outcome) dir = false → out2 = outcome) ∧
      tempFolderExit dir out2 = some out2 ∧
      (∀ e fs0, outcome = .error (e, fs0) → ∃ fs3, out2 = .error (e, fs3)) ∧
      (∀ fs0, outcome = .ok fs0 → ∃ fs3, out2 = .ok fs3) := by
  cases outcome with
  | ok fs =>
    obtain ⟨fs2, hclean, hex2, hskip⟩ := tempFolderCleanup_spec dir fs
    have hclean2 : tempFolderCleanup dir fs2 = some fs2 := by
      rw [tempFolderCleanup, if_neg (by simp [hex2])]
    refine ⟨.ok fs2, ?_, hex2, filesUnder_nil_of_not_exists hex2, ?_, ?_, ?_, ?_⟩
    · simp [tempFolderExit, hclean]
    · intro hfs; rw [hskip hfs]
    · simp [tempFolderExit, hclean2]
    · intro e f hcontra; cases hcontra
    · intro f _; exact ⟨fs2, rfl⟩
  | error p =>
    rcases p with ⟨e, fs⟩
    obtain ⟨fs2, hclean, hex2, hskip⟩ := tempFolderCleanup_spec dir fs
    have hclean2 : tempFolderCleanup dir fs2 = some fs2 := by
      rw [tempFolderCleanup, if_neg (by simp [hex2])]
    refine ⟨.error (e, fs2), ?_, hex2, filesUnder_nil_of_not_exists hex2, ?_, ?_, ?_, ?_⟩
    · simp [tempFolderExit, hclean]
    · intro hfs; rw [hskip hfs]
    · simp [tempFolderExit, hclean2]
    · intro e2 f h2
      injection h2 with hp
      rw [Prod.mk.injEq] at hp
      exact ⟨fs2, by rw [hp.1]⟩
    · intro f hcontra; cases hcontra

/-- Witness for C4 at a concrete normal outcome holding one staged
file. -/
theorem staging_scope_cleanup_witness :
    ∃ out2, tempFolderExit "ram://w" (.ok [(pathJoin "ram://w" "f", [1])]) = some out2 ∧
      gfileExists (outcomeFS out2) "ram://w" = false ∧
      filesUnder (outcomeFS out2) "ram://w" = [] ∧
      (gfileExists (outcomeFS (.ok [(pathJoin "ram://w" "f", [1])])) "ram://w" = false →
        out2 = .ok [(pathJoin "ram://w" "f", [1])]) ∧
      tempFolderExit "ram://w" out2 = some out2 ∧
      (∀ e fs0, (.ok [(pathJoin "ram://w" "f", [1])] : Except (PyExn × FS) FS)
          = .error (e, fs0) → ∃ fs3, out2 = .error (e, fs3)) ∧
      (∀ fs0, (.ok [(pathJoin "ram://w" "f", [1])] : Except (PyExn × FS) FS)
          = .ok fs0 → ∃ fs3, out2 = .ok fs3) :=
  staging_scope_cleanup "ram://w" (.ok [(pathJoin "ram://w" "f", [1])])

/-- Claim C7: during `pack_keras_model` every staged file is read in
full and appended to the archive as one entry keyed by its path
relative to the staging root — the archive equals the staged tree — and
each file is removed as the loop goes, so no file under the staging
root survives the archiving loop. -/
theorem pack_streaming_cleanup (mode : Bool) (m : KModel) (u : String)
    (hsep : pairwiseSep (m.saveTree.map Prod.fst)) :
    pack_keras_model mode m ("ram://" ++ u) =
      some ({ unpackFn := UnpackTag.unpackModelTag, archive := m.saveTree,
              optimizer_weights := m.optimizer }, []) :=
  pack_keras_model_run (ram_append u) mode m hsep

/-- Witness for C7 at a concrete model with an optimizer. -/
theorem pack_streaming_cleanup_witness :
    pack_keras_model true { saveTree := sampleTree, optimizer := some [sampleW] }
        ("ram://" ++ "c") =
      some ({ unpackFn := UnpackTag.unpackModelTag, archive := sampleTree,
              optimizer_weights := some [sampleW] }, []) :=
  pack_streaming_cleanup true { saveTree := sampleTree, optimizer := some [sampleW] }
    "c" (by decide)

/-- Claim C8: the dest computation shared by the pack and unpack walk
loops detects full-form (absolute) reporting: over a staged tree the
computed targets in full-path mode and in relative mode agree — both
equal the staged files' paths — and the archive entry names computed
from those targets are the original staging-root-relative paths. -/
theorem dest_computation_uniform (u : String) (tree : List (String × Bytes)) :
    ((walkPairs true (underDir ("ram://" ++ u) tree) ("ram://" ++ u)).map
        (fun q => destOf q.1 q.2))
      = tree.map (fun e => pathJoin ("ram://" ++ u) e.1) ∧
    ((walkPairs false (underDir ("ram://" ++ u) tree) ("ram://" ++ u)).map
        (fun q => destOf q.1 q.2))
      = tree.map (fun e => pathJoin ("ram://" ++ u) e.1) ∧
    tree.map (fun e => relpath (pathJoin ("ram://" ++ u) e.1) ("ram://" ++ u))
      = tree.map Prod.fst := by
  refine ⟨?_, ?_, ?_⟩
  · rw [walkPairs_underDir_true, List.map_map]
    apply List.map_congr_left
    intro e _
    exact destOf_full (ram_append u) _ _
  · rw [walkPairs_underDir_false, List.map_map]
    apply List.map_congr_left
    intro e _
    exact destOf_rel _ _
  · apply List.map_congr_left
    intro e _
    exact relpath_pathJoin _ _

/-- Claim C6: for every model with no attached optimizer (whose save
tree is well formed and loadable per the save/load contract), packing
succeeds and returns None in place of the optimizer weight list, and
unpacking that result succeeds, yields a model whose optimizer is None,
and attaches no restoration hook. -/
theorem no_optimizer_roundtrip (mode1 mode2 : Bool) (m : KModel) (u1 u2 : String)
    (hopt : m.optimizer = none) (hsep : pairwiseSep (m.saveTree.map Prod.fst))
    (hcoh : saveLoadCoherent m) :
    ∃ px live,
      pack_keras_model mode1 m ("ram://" ++ u1) = some (px, []) ∧
      px.optimizer_weights = none ∧
      unpack_keras_model mode2 px.archive px.optimizer_weights ("ram://" ++ u2) =
        some (live, []) ∧
      live.optimizer = none := by
  obtain ⟨live0, hload, hlo⟩ := hcoh
  rw [hopt, Option.map_none'] at hlo
  have hpack := pack_keras_model_run (ram_append u1) mode1 m hsep
  refine ⟨{ unpackFn := UnpackTag.unpackModelTag, archive := m.saveTree,
            optimizer_weights := m.optimizer },
    { live0 with optimizer := none }, hpack, by simp [hopt], ?_, rfl⟩
  show unpack_keras_model mode2 m.saveTree m.optimizer ("ram://" ++ u2) = _
  rw [hopt]
  have h2 := unpack_keras_model_run (ram_append u2) mode2 none hsep hload
  rw [hlo, Option.map_none'] at h2
  exact h2

/-- Witness for C6 at a concrete optimizer-free model. -/
theorem no_optimizer_roundtrip_witness :
    ∃ px live,
      pack_keras_model false sampleModelNoOpt ("ram://" ++ "a") = some (px, []) ∧
      px.optimizer_weights = none ∧
      unpack_keras_model true px.archive px.optimizer_weights ("ram://" ++ "b") =
        some (live, []) ∧
      live.optimizer = none :=
  no_optimizer_roundtrip false true sampleModelNoOpt "a" "b" (by decide) (by decide)
    ⟨{ payload := [7, 8], optimizer := none }, by decide, by decide⟩

/-- Claim C5 is refuted as stated: here no optimizer weights are
supplied (None), yet because the reconstructed model exposes an
optimizer, `unpack_keras_model` still attaches the restoration hook. -/
theorem hook_attach_counterexample :
    unpack_keras_model true cxArchive none "ram://u" = some (cxLive, []) ∧
    cxLive.optimizer.map (fun o => o.create_all_weights) = some AllocMethod.hooked := by
  constructor
  · decide
  · decide

/-- Claim C5 (amended): `unpack_keras_model` attaches the restoration
hook to the reconstructed model's optimizer exactly when that model
exposes an optimizer, regardless of whether weight arrays were
supplied: every optimizer in its output carries the hook (with the
supplied argument, possibly None, as the pending value), and when the
model has no optimizer there is none to hook. -/
theorem hook_attach_condition (mode : Bool) (ar : Archive) (ow : Option (List WArr))
    (d : String) (live : LiveModel) (fs2 : FS)
    (h : unpack_keras_model mode ar ow d = some (live, fs2)) :
    ∀ o, live.optimizer = some o →
      o.create_all_weights = AllocMethod.hooked ∧
      o.restored_weights = some ow ∧
      o.create_all_weights_orig = some AllocMethod.original := by
  intro o ho
  obtain ⟨fs1, model, hex, hld, hdel, hcase⟩ := unpack_keras_model_char h
  rcases hcase with ⟨hmo, rfl⟩ | ⟨opt0, hmo, rfl⟩
  · rw [hmo] at ho; cases ho
  · have ho2 : some (restore_optimizer_weights opt0 ow) = some o := ho
    rw [Option.some.injEq] at ho2
    have hfresh := loadFiles_opt_fresh hld opt0 hmo
    rw [← ho2]
    refine ⟨rfl, rfl, ?_⟩
    show some opt0.create_all_weights = some AllocMethod.original
    rw [hfresh.1]

/-- Witness for the amended C5 at the concrete reconstruction from
`cxArchive`. -/
theorem hook_attach_condition_witness :
    cxLiveOpt.create_all_weights = AllocMethod.hooked ∧
    cxLiveOpt.restored_weights = some none ∧
    cxLiveOpt.create_all_weights_orig = some AllocMethod.original := by
  have h := hook_attach_condition true cxArchive none "ram://u" cxLive []
    (by decide) cxLiveOpt (by decide)
  exact h

/-- Claim C2 is refuted as stated: after the hook fires once and
successfully restores the matching weights, the transient field
`_create_all_weights_orig` is still present on the optimizer — only
`_restored_weights` is removed. -/
theorem hook_residue_counterexample :
    temp_create_all_weights kerasCollab hookedOpt [sampleVar] = .ok cxOut ∧
    cxOut.create_all_weights_orig ≠ none := by
  constructor
  · rfl
  · decide

/-- Claim C2 (amended): when the wrapper installed by
`_restore_optimizer_weights` fires and control returns normally,
`_restored_weights` is removed and the saved routine is reinstalled as
`_create_all_weights`, so the hook does not fire on the next
allocation call; but the transient field `_create_all_weights_orig`
remains set on the optimizer. -/
theorem hook_fires_once_with_residue {σ : Type} (c : Collab σ) (o : OptObj σ)
    (vars : List Var) (m : AllocMethod) (out : OptObj σ)
    (hm : o.create_all_weights_orig = some m)
    (h : temp_create_all_weights c o vars = .ok out) :
    out.restored_weights = none ∧ out.create_all_weights = m ∧
    out.create_all_weights_orig = some m ∧
    (m = AllocMethod.original →
      ∀ vars2 out2, call_create_all_weights c out vars2 = .ok out2 →
        out2.restored_weights = none ∧ out2.create_all_weights = AllocMethod.original ∧
        out2.create_all_weights_orig = some m) := by
  obtain ⟨st, rw0, orig0, cw0⟩ := o
  simp only at hm
  subst hm
  simp only [temp_create_all_weights] at h
  cases ha : c.origAlloc st vars with
  | error p =>
    rcases p with ⟨e, s⟩
    rw [ha] at h
    simp at h
  | ok s1 =>
    rw [ha] at h
    cases rw0 with
    | none => simp at h
    | some pending =>
      simp only at h
      cases hsw : c.setWeights s1 pending with
      | ok s2 =>
        rw [hsw] at h
        simp only [Except.ok.injEq] at h
        subst h
        refine ⟨rfl, rfl, rfl, ?_⟩
        intro hmo vars2 out2 h2
        subst hmo
        simp only [call_create_all_weights] at h2
        cases ha2 : c.origAlloc s2 vars2 with
        | error p2 =>
          rcases p2 with ⟨e2, s3⟩
          rw [ha2] at h2
          simp at h2
        | ok s3 =>
          rw [ha2] at h2
          simp only [Except.ok.injEq] at h2
          subst h2
          exact ⟨rfl, rfl, rfl⟩
      | error p =>
        rcases p with ⟨e, s2⟩
        rw [hsw] at h
        cases e with
        | valueError =>
          simp only [Except.ok.injEq] at h
          subst h
          refine ⟨rfl, rfl, rfl, ?_⟩
          intro hmo vars2 out2 h2
          subst hmo
          simp only [call_create_all_weights] at h2
          cases ha2 : c.origAlloc s2 vars2 with
          | error p2 =>
            rcases p2 with ⟨e2, s3⟩
            rw [ha2] at h2
            simp at h2
          | ok s3 =>
            rw [ha2] at h2
            simp only [Except.ok.injEq] at h2
            subst h2
            exact ⟨rfl, rfl, rfl⟩
        | typeError => simp at h
        | attributeError => simp at h
        | notFoundError => simp at h
        | runtimeError => simp at h

/-- Witness for the amended C2 at a concrete successful firing. -/
theorem hook_fires_once_with_residue_witness :
    cxOut.restored_weights = none ∧ cxOut.create_all_weights = AllocMethod.original ∧
    cxOut.create_all_weights_orig = some AllocMethod.original := by
  have h := hook_fires_once_with_residue kerasCollab hookedOpt [sampleVar]
    AllocMethod.original cxOut (by decide) (by rfl)
  exact ⟨h.1, h.2.1, h.2.2.1⟩

/-- Claim C3: a hook firing whose pending weight list mismatches the
freshly allocated slot shapes does not raise — the ValueError from
set_weights is swallowed, the pending weights are discarded, and the
optimizer keeps the freshly allocated default slot values. -/
theorem shape_mismatch_swallowed (o : OptObj (List WArr)) (vars : List Var)
    (ws : List WArr) (m : AllocMethod)
    (hr : o.restored_weights = some (some ws))
    (hm : o.create_all_weights_orig = some m)
    (hmis : ws.map (fun a => a.shape) ≠ (defaultWeights vars).map (fun a => a.shape)) :
    temp_create_all_weights kerasCollab o vars =
      .ok { state := defaultWeights vars, restored_weights := none,
            create_all_weights_orig := some m, create_all_weights := m } := by
  obtain ⟨st, rw0, orig0, cw0⟩ := o
  simp only at hr hm
  subst hr
  subst hm
  simp only [temp_create_all_weights, kerasCollab]
  rw [if_neg hmis]

/-- Witness for C3 at a concrete mismatched pending list. -/
theorem shape_mismatch_swallowed_witness :
    temp_create_all_weights kerasCollab hookedOptBad [sampleVar] =
      .ok { state := defaultWeights [sampleVar], restored_weights := none,
            create_all_weights_orig := some AllocMethod.original,
            create_all_weights := AllocMethod.original } :=
  shape_mismatch_swallowed hookedOptBad [sampleVar] [sampleWBad] AllocMethod.original
    (by decide) (by decide) (by decide)

/-- Claim C9: metric and loss packing serialize only the configuration
(two metrics or losses with equal configurations pack identically, with
no staging storage involved), each pack returns exactly its
corresponding unpack callback plus the one-element argument tuple
holding the serialized configuration, and unpacking the packed result
yields an object whose configuration equals the original's. -/
theorem metric_loss_roundtrip (metric : KMetric) (loss : KLoss) :
    pack_keras_metric metric = (UnpackTag.unpackMetricTag, serializeMetric metric) ∧
    (unpack_keras_metric (pack_keras_metric metric).2).config = metric.config ∧
    (∀ m2 : KMetric, m2.config = metric.config →
      pack_keras_metric m2 = pack_keras_metric metric) ∧
    pack_keras_loss loss = (UnpackTag.unpackLossTag, serializeLoss loss) ∧
    (unpack_keras_loss (pack_keras_loss loss).2).config = loss.config ∧
    (∀ l2 : KLoss, l2.config = loss.config →
      pack_keras_loss l2 = pack_keras_loss loss) := by
  refine ⟨rfl, rfl, ?_, rfl, rfl, ?_⟩
  · intro m2 hc
    simp [pack_keras_metric, serializeMetric, hc]
  · intro l2 hc
    simp [pack_keras_loss, serializeLoss, hc]

/-- Witness for C9 at a concrete metric and loss, including a metric
with the same configuration but different accumulator state. -/
theorem metric_loss_roundtrip_witness :
    (unpack_keras_metric (pack_keras_metric sampleMetric).2).config = sampleMetric.config ∧
    pack_keras_metric { config := sampleMetric.config, accState := [9, 9] }
      = pack_keras_metric sampleMetric ∧
    (unpack_keras_loss (pack_keras_loss sampleLoss).2).config = sampleLoss.config := by
  have h := metric_loss_roundtrip sampleMetric sampleLoss
  exact ⟨h.2.1, h.2.2.1 { config := sampleMetric.config, accState := [9, 9] } rfl, h.2.2.2.2.1⟩

/-- Claim C10: inside the restoration hook only a ValueError raised by
applying the pending weights is swallowed. If the saved original
allocation routine raises, or applying the weights raises anything
other than ValueError, the exception propagates, the cleanup does not
run, and the optimizer keeps both transient fields and the installed
wrapper — the ValueError case alone is caught, after which the cleanup
runs. -/
theorem only_valueerror_swallowed {σ : Type} (c : Collab σ) (o : OptObj σ)
    (vars : List Var) (w : Option (List WArr)) (m : AllocMethod)
    (hr : o.restored_weights = some w) (hm : o.create_all_weights_orig = some m)
    (hk : o.create_all_weights = AllocMethod.hooked) :
    (∀ e s, c.origAlloc o.state vars = .error (e, s) →
      temp_create_all_weights c o vars = .error (e, { o with state := s }) ∧
      ({ o with state := s } : OptObj σ).restored_weights = some w ∧
      ({ o with state := s } : OptObj σ).create_all_weights_orig = some m ∧
      ({ o with state := s } : OptObj σ).create_all_weights = AllocMethod.hooked) ∧
    (∀ s1 e s2, c.origAlloc o.state vars = .ok s1 →
      c.setWeights s1 w = .error (e, s2) → e ≠ PyExn.valueError →
      temp_create_all_weights c o vars = .error (e, { o with state := s2 }) ∧
      ({ o with state := s2 } : OptObj σ).restored_weights = some w ∧
      ({ o with state := s2 } : OptObj σ).create_all_weights_orig = some m ∧
      ({ o with state := s2 } : OptObj σ).create_all_weights = AllocMethod.hooked) ∧
    (∀ s1 s2, c.origAlloc o.state vars = .ok s1 →
      c.setWeights s1 w = .error (PyExn.valueError, s2) →
      temp_create_all_weights c o vars =
        .ok { o with
          state := s2, restored_weights := none,
          create_all_weights := m }) := by
  obtain ⟨st, rw0, orig0, cw0⟩ := o
  simp only at hr hm hk
  subst hr
  subst hm
  subst hk
  refine ⟨?_, ?_, ?_⟩
  · intro e s ha
    simp [temp_create_all_weights, ha]
  · intro s1 e s2 ha hsw hne
    cases e with
    | valueError => exact absurd rfl hne
    | typeError =>
      simp [temp_create_all_weights, ha, hsw]
    | attributeError =>
      simp [temp_create_all_weights, ha, hsw]
    | notFoundError =>
      simp [temp_create_all_weights, ha, hsw]
    | runtimeError =>
      simp [temp_create_all_weights, ha, hsw]
  · intro s1 s2 ha hsw
    simp only [temp_create_all_weights, ha, hsw]

/-- Witness for C10: a raising allocation routine and a non-ValueError
set_weights both propagate with the wrapper still installed and both
transient fields in place. -/
theorem only_valueerror_swallowed_witness :
    (temp_create_all_weights failCollab hookedOptNat [] =
      .error (PyExn.runtimeError, { hookedOptNat with state := 1 }) ∧
     ({ hookedOptNat with state := 1 } : OptObj Nat).restored_weights
       = some (some [sampleW]) ∧
     ({ hookedOptNat with state := 1 } : OptObj Nat).create_all_weights_orig
       = some AllocMethod.original ∧
     ({ hookedOptNat with state := 1 } : OptObj Nat).create_all_weights
       = AllocMethod.hooked) ∧
    (temp_create_all_weights badSetCollab hookedOptNat [] =
      .error (PyExn.typeError, { hookedOptNat with state := 7 }) ∧
     ({ hookedOptNat with state := 7 } : OptObj Nat).restored_weights
       = some (some [sampleW]) ∧
     ({ hookedOptNat with state := 7 } : OptObj Nat).create_all_weights_orig
       = some AllocMethod.original ∧
     ({ hookedOptNat with state := 7 } : OptObj Nat).create_all_weights
       = AllocMethod.hooked) := by
  constructor
  · exact (only_valueerror_swallowed failCollab hookedOptNat [] (some [sampleW])
      AllocMethod.original rfl rfl rfl).1 PyExn.runtimeError 1 rfl
  · exact ((only_valueerror_swallowed badSetCollab hookedOptNat [] (some [sampleW])
      AllocMethod.original rfl rfl rfl).2.1) 5 PyExn.typeError 7 rfl rfl (by decide)

end SciKeras
